import Mathlib

/-!
Verification of the fast reciprocal-square-root kernel of the
cc_executor proof-of-concept sources (src/proof_of_concept/*.cpp).

Modelling conventions (shallow embedding):

* A 32-bit float is represented by its bit pattern, a natural number
  below 2^32.  `floatVal` maps a positive (sign bit 0) pattern to the
  exact rational value it denotes, covering normals and denormals.
* The bit-hack stage operates on patterns with C unsigned 32-bit
  arithmetic (`usub32` is wraparound subtraction modulo 2^32).
* Floating-point arithmetic of the Newton-Raphson refinement stage is
  interpreted exactly (over ℚ, cast into ℝ where irrational reference
  values appear); this is the exact-arithmetic reading of the kernel.
  FMA versus separate multiply/subtract coincide in this reading.
* The reference primitive 1.0f/sqrtf(v) used only at table-construction
  time is modelled as the exact real (Real.sqrt v)⁻¹ (`rsqrtRef`).
-/

/-- Mantissa field of a 32-bit float pattern (low 23 bits). -/
def mant (i : ℕ) : ℕ := i % 2 ^ 23

/-- Biased exponent field of a 32-bit float pattern (bits 23..30). -/
def expf (i : ℕ) : ℕ := i / 2 ^ 23 % 2 ^ 8

/-- Logical right shift by one, i >> 1 of the C sources. -/
def shr1 (i : ℕ) : ℕ := i / 2

/-- C unsigned 32-bit subtraction (wraparound modulo 2^32). -/
def usub32 (a b : ℕ) : ℕ := (a % 2 ^ 32 + (2 ^ 32 - b % 2 ^ 32)) % 2 ^ 32

/-- Exact rational value denoted by a positive (sign bit 0) float
pattern: denormal for exponent field 0, else normal. -/
def floatVal (i : ℕ) : ℚ :=
  if expf i = 0 then (mant i : ℚ) / 2 ^ 23 * (2 : ℚ) ^ (-126 : ℤ)
  else (1 + (mant i : ℚ) / 2 ^ 23) * (2 : ℚ) ^ ((expf i : ℤ) - 127)

/-- Bit-hack initial-guess stage common to every variant:
reinterpret, shift, subtract from the magic constant.  Returns the
pattern of the coarse estimate. -/
def bitApprox (magic i : ℕ) : ℕ := usub32 magic (shr1 i)

/-- One Newton-Raphson update y * (c - x2 * y * y), with x2 = x/2
precomputed, exactly as all the C sources write it. -/
def nrStep {K : Type} [Field K] (c x2 y : K) : K := y * (c - x2 * y * y)

/-- Refiner of the spec: steps successive Newton-Raphson updates
applied to the initial guess y0. -/
def refine {K : Type} [Field K] (c x y0 : K) (steps : ℕ) : K :=
  (nrStep c (x / 2))^[steps] y0

/-- Exact model of the reference primitive 1.0f / sqrtf(v), used only
at profile/table construction time. -/
noncomputable def rsqrtRef (v : ℚ) : ℝ := (Real.sqrt v)⁻¹

/-- Q_rsqrt of fast_reciprocal_sqrt_final.cpp (also the baseline file):
magic 0x5f3759df, one Newton-Raphson iteration with constant 1.5. -/
def Q_rsqrt (i : ℕ) : ℚ :=
  nrStep (3 / 2) (floatVal i / 2) (floatVal (bitApprox 0x5f3759df i))

namespace AccuracyComparison

/-- enhancedInvSqrt of accuracy_comparison.cpp: magic 0x5f375a86,
two Newton-Raphson iterations with constant 1.5. -/
def enhancedInvSqrt (i : ℕ) : ℚ :=
  let x2 : ℚ := floatVal i / 2
  let y0 : ℚ := floatVal (bitApprox 0x5f375a86 i)
  nrStep (3 / 2) x2 (nrStep (3 / 2) x2 y0)

end AccuracyComparison

namespace Neural

/-- MagicConstants of neural_inspired_rsqrt.cpp. -/
def tinyC : ℕ := 0x5f375a86

/-- Magic constant for the small exponent range. -/
def smallC : ℕ := 0x5f375a00

/-- Magic constant for the medium exponent range. -/
def mediumC : ℕ := 0x5f3759df

/-- Magic constant for the large exponent range. -/
def largeC : ℕ := 0x5f37599e

/-- Magic constant for the huge exponent range. -/
def hugeC : ℕ := 0x5f375800

/-- Exact binary32 value of the literal 1.50087900f (poly_a). -/
def polyA : ℚ := 6295143 / 4194304

/-- Exact binary32 value of the literal -0.50062900f (poly_b). -/
def polyB : ℚ := -8399161 / 16777216

/-- Exact binary32 value of the literal 0.00017350f (poly_c). -/
def polyC : ℚ := 11922829 / 68719476736

/-- Range-specific magic selection of NeuralRsqrt::compute
(keyed on the biased exponent field). -/
def selectMagic (i : ℕ) : ℕ :=
  if expf i < 64 then tinyC
  else if expf i < 102 then smallC
  else if expf i < 134 then mediumC
  else if expf i < 157 then largeC
  else hugeC

end Neural

/-- C2: for every positive finite float pattern i (0 < i < 0x7f800000),
the bit-hack stage computes exactly magic_constant - (i >> 1) with no
unsigned wraparound, both for the single global magic constant
0x5f3759df and for the exponent-selected magic of the neural variant;
it is a pure function of the bit pattern by construction. -/
theorem bitApprox_exact (i : ℕ) (hpos : 0 < i) (hfin : i < 0x7f800000) :
    bitApprox 0x5f3759df i = 0x5f3759df - i / 2 ∧
    bitApprox (Neural.selectMagic i) i = Neural.selectMagic i - i / 2 := by
  have hmagic : 0x5f375800 ≤ Neural.selectMagic i ∧ Neural.selectMagic i ≤ 0x5f375a86 := by
    unfold Neural.selectMagic Neural.tinyC Neural.smallC Neural.mediumC Neural.largeC
      Neural.hugeC
    split_ifs <;> omega
  unfold bitApprox usub32 shr1
  omega

/-- C2 witness: the pattern of 1.0f is positive and finite, and the
theorem applies to it. -/
theorem bitApprox_exact_witness :
    0 < 0x3F800000 ∧ 0x3F800000 < 0x7f800000 ∧
      (bitApprox 0x5f3759df 0x3F800000 = 0x5f3759df - 0x3F800000 / 2 ∧
       bitApprox (Neural.selectMagic 0x3F800000) 0x3F800000 =
         Neural.selectMagic 0x3F800000 - 0x3F800000 / 2) :=
  ⟨by norm_num, by norm_num, bitApprox_exact 0x3F800000 (by norm_num) (by norm_num)⟩

/-- C3: refine applies exactly steps successive Newton-Raphson updates:
zero steps returns y0 unchanged, step count steps+1 applies one more
update to the result of steps of them; the unrolled source kernels are
exactly refine at their advertised step counts (Q_rsqrt one iteration,
enhancedInvSqrt two iterations). -/
theorem refine_steps :
    (∀ (c x y0 : ℚ), refine c x y0 0 = y0) ∧
    (∀ (c x y0 : ℚ) (k : ℕ),
      refine c x y0 (k + 1) = nrStep c (x / 2) (refine c x y0 k)) ∧
    (∀ i : ℕ, Q_rsqrt i = refine (3 / 2) (floatVal i) (floatVal (bitApprox 0x5f3759df i)) 1) ∧
    (∀ i : ℕ, AccuracyComparison.enhancedInvSqrt i =
      refine (3 / 2) (floatVal i) (floatVal (bitApprox 0x5f375a86 i)) 2) := by
  refine ⟨fun c x y0 => rfl, fun c x y0 k => ?_, fun i => rfl, fun i => ?_⟩
  · simp [refine, Function.iterate_succ_apply']
  · simp [AccuracyComparison.enhancedInvSqrt, refine, Function.iterate_succ_apply']

namespace GameEngine

/-- Exact binary32 value of NR_CONSTANT_1 = 1.5000036f
(fast_reciprocal_sqrt_final.cpp). -/
def NR1 : ℚ := 3 / 2 + 30 / 2 ^ 23

/-- NR_CONSTANT_2 = 1.5000000f. -/
def NR2 : ℚ := 3 / 2

/-- MAGIC_CONSTANT of GameEngineFastRSqrt. -/
def MAGIC : ℕ := 0x5f375a86

/-- GameEngineFastRSqrt::compute: bit hack with MAGIC, then two
Newton-Raphson iterations with constants NR1 and NR2.  The argument is
the bit pattern of the input float. -/
def compute (p : ℕ) : ℚ :=
  let x2 : ℚ := floatVal p / 2
  nrStep NR2 x2 (nrStep NR1 x2 (floatVal (bitApprox MAGIC p)))

end GameEngine

/-- Error transformation of one exact Newton-Raphson step with the
untuned constant 3/2: writing t = y - s for the true root s = 1/sqrt x,
the new signed error is -t^2 (3 s + t) / (2 s^2). -/
theorem nrStep_error_formula (x s y : ℝ) (hs : 0 < s) (hx : s ^ 2 * x = 1) :
    nrStep (3 / 2) (x / 2) y - s = -((y - s) ^ 2 * (3 * s + (y - s))) / (2 * s ^ 2) := by
  have hxval : x = 1 / s ^ 2 := by
    field_simp
    linarith [hx]
  subst hxval
  unfold nrStep
  field_simp
  ring

/-- Basin lemma: one exact Newton-Raphson step with constant 3/2 does
not increase the absolute error while the error stays at most s/2, and
the bound s/2 is preserved. -/
theorem nrStep_error_mono (x s y : ℝ) (hs : 0 < s) (hx : s ^ 2 * x = 1)
    (hbasin : |y - s| ≤ s / 2) :
    |nrStep (3 / 2) (x / 2) y - s| ≤ |y - s| ∧ |nrStep (3 / 2) (x / 2) y - s| ≤ s / 2 := by
  obtain ⟨h1, h2⟩ := abs_le.mp hbasin
  have habs : |nrStep (3 / 2) (x / 2) y - s| =
      (y - s) ^ 2 * (3 * s + (y - s)) / (2 * s ^ 2) := by
    rw [nrStep_error_formula x s y hs hx, neg_div, abs_neg, abs_div, abs_mul,
      abs_of_nonneg (sq_nonneg (y - s)),
      abs_of_nonneg (by linarith : (0 : ℝ) ≤ 3 * s + (y - s)),
      abs_of_pos (by positivity : (0 : ℝ) < 2 * s ^ 2)]
  have hsq : (y - s) ^ 2 ≤ (s / 2) * |y - s| := by
    rw [← sq_abs (y - s), sq]
    exact mul_le_mul_of_nonneg_right hbasin (abs_nonneg _)
  constructor
  · rw [habs, div_le_iff (by positivity : (0 : ℝ) < 2 * s ^ 2)]
    nlinarith [abs_nonneg (y - s), sq_abs (y - s), sq_nonneg (y - s)]
  · rw [habs, div_le_iff (by positivity : (0 : ℝ) < 2 * s ^ 2)]
    nlinarith [abs_nonneg (y - s), sq_abs (y - s), sq_nonneg (y - s)]

/-- C4 (amended): with the exact Newton constant 3/2 (the profiles of
accuracy_comparison.cpp and the second iteration elsewhere), for every
x with true reciprocal square root s and every initial guess y0 whose
absolute error is at most s/2 (the bit-hack guess always is), the
error after k+1 refinement steps is at most the error after k steps.
The tuned constant 1.5000036f violates this (see the counterexample
theorem). -/
theorem refine_error_mono (x s y0 : ℝ) (k : ℕ) (hs : 0 < s) (hx : s ^ 2 * x = 1)
    (hbasin : |y0 - s| ≤ s / 2) :
    |refine (3 / 2) x y0 (k + 1) - s| / s ≤ |refine (3 / 2) x y0 k - s| / s := by
  have hinv : ∀ n : ℕ, |refine (3 / 2) x y0 n - s| ≤ s / 2 := by
    intro n
    induction n with
    | zero => exact hbasin
    | succ m ih =>
        have hstep : refine (3 / 2) x y0 (m + 1) =
            nrStep (3 / 2) (x / 2) (refine (3 / 2) x y0 m) := by
          simp [refine, Function.iterate_succ_apply']
        rw [hstep]
        exact (nrStep_error_mono x s _ hs hx ih).2
  have hstep : refine (3 / 2) x y0 (k + 1) =
      nrStep (3 / 2) (x / 2) (refine (3 / 2) x y0 k) := by
    simp [refine, Function.iterate_succ_apply']
  have hmain : |refine (3 / 2) x y0 (k + 1) - s| ≤ |refine (3 / 2) x y0 k - s| := by
    rw [hstep]
    exact (nrStep_error_mono x s _ hs hx (hinv k)).1
  exact (div_le_div_right hs).mpr hmain

/-- C4 witness: the monotonicity theorem applied at x = 4, s = 1/2,
y0 = 3/5, k = 0. -/
theorem refine_error_mono_witness :
    (0 : ℝ) < 1 / 2 ∧ ((1 : ℝ) / 2) ^ 2 * 4 = 1 ∧ |(3 : ℝ) / 5 - 1 / 2| ≤ (1 / 2) / 2 ∧
      |refine (3 / 2) (4 : ℝ) (3 / 5) (0 + 1) - 1 / 2| / (1 / 2) ≤
        |refine (3 / 2) (4 : ℝ) (3 / 5) 0 - 1 / 2| / (1 / 2) := by
  refine ⟨by norm_num, by norm_num, ?_, ?_⟩
  · rw [show (3 : ℝ) / 5 - 1 / 2 = 1 / 10 by norm_num, abs_of_pos (by norm_num)]
    norm_num
  · exact refine_error_mono 4 (1 / 2) (3 / 5) 0 (by norm_num) (by norm_num)
      (by rw [show (3 : ℝ) / 5 - 1 / 2 = 1 / 10 by norm_num, abs_of_pos (by norm_num)]
          norm_num)

/-- C4 counterexample: at the float 0x40580702 (x = 3.37542772...),
the bit-hack initial guess is already within 5e-9 of 1/sqrt x, and one
Newton-Raphson step with the tuned constant NR1 = 1.5000036f moves the
estimate to relative error about 3.6e-6: the relative error after one
step strictly exceeds the relative error after zero steps, refuting
monotonic improvement for the tuned-constant profile. -/
theorem nrStep_tuned_increases_error :
    |(floatVal (bitApprox GameEngine.MAGIC 0x40580702) : ℝ) -
        (Real.sqrt (floatVal 0x40580702 : ℚ))⁻¹| /
      (Real.sqrt (floatVal 0x40580702 : ℚ))⁻¹ <
    |(↑(nrStep GameEngine.NR1 ((floatVal 0x40580702 : ℚ) / 2)
          (floatVal (bitApprox GameEngine.MAGIC 0x40580702))) : ℝ) -
        (Real.sqrt (floatVal 0x40580702 : ℚ))⁻¹| /
      (Real.sqrt (floatVal 0x40580702 : ℚ))⁻¹ := by
  have hxq : floatVal 0x40580702 = 7078785 / 2097152 := by
    norm_num [floatVal, expf, mant]
  have hy0q : floatVal (bitApprox GameEngine.MAGIC 0x40580702) = 9131781 / 16777216 := by
    norm_num [floatVal, expf, mant, bitApprox, usub32, shr1, GameEngine.MAGIC]
  rw [hxq, hy0q]
  simp only [nrStep, GameEngine.NR1]
  push_cast
  have hsqrt_pos : 0 < Real.sqrt ((7078785 : ℝ) / 2097152) :=
    Real.sqrt_pos.mpr (by norm_num)
  have h1 : Real.sqrt ((7078785 : ℝ) / 2097152) < ((5442965599 : ℝ) / 10000000000)⁻¹ := by
    rw [Real.sqrt_lt' (by norm_num)]
    norm_num
  have h2 : ((5442965699 : ℝ) / 10000000000)⁻¹ < Real.sqrt ((7078785 : ℝ) / 2097152) := by
    apply (Real.lt_sqrt (by positivity)).mpr
    norm_num
  have ha : (5442965599 : ℝ) / 10000000000 < (Real.sqrt ((7078785 : ℝ) / 2097152))⁻¹ := by
    have h3 := inv_lt_inv_of_lt hsqrt_pos h1
    rwa [inv_inv] at h3
  have hb : (Real.sqrt ((7078785 : ℝ) / 2097152))⁻¹ < (5442965699 : ℝ) / 10000000000 := by
    have h3 := inv_lt_inv_of_lt (by positivity : (0 : ℝ) < ((5442965699 : ℝ) / 10000000000)⁻¹) h2
    rwa [inv_inv] at h3
  set s : ℝ := (Real.sqrt ((7078785 : ℝ) / 2097152))⁻¹ with hs_def
  have hs_pos : 0 < s := by positivity
  have habs0 : |(9131781 : ℝ) / 16777216 - s| < 1 / 100000000 := by
    apply abs_lt.mpr
    constructor <;> nlinarith [ha, hb]
  have hEgap : (5442965699 : ℝ) / 10000000000 + 1 / 100000000 <
      9131781 / 16777216 * (3 / 2 + 30 / 2 ^ 23 - 7078785 / 2097152 / 2 *
        (9131781 / 16777216) * (9131781 / 16777216)) := by
    norm_num
  have hfinal : |(9131781 : ℝ) / 16777216 - s| <
      |9131781 / 16777216 * (3 / 2 + 30 / 2 ^ 23 - 7078785 / 2097152 / 2 *
        (9131781 / 16777216) * (9131781 / 16777216)) - s| := by
    calc |(9131781 : ℝ) / 16777216 - s| < 1 / 100000000 := habs0
      _ ≤ 9131781 / 16777216 * (3 / 2 + 30 / 2 ^ 23 - 7078785 / 2097152 / 2 *
            (9131781 / 16777216) * (9131781 / 16777216)) - s := by nlinarith [hb, hEgap]
      _ ≤ |9131781 / 16777216 * (3 / 2 + 30 / 2 ^ 23 - 7078785 / 2097152 / 2 *
            (9131781 / 16777216) * (9131781 / 16777216)) - s| := le_abs_self _
  exact (div_lt_div_iff_of_pos_right hs_pos).mpr hfinal

namespace Hybrid

/-- MAGIC_SMALL of hybrid_vector_rsqrt.cpp (values < 1.0). -/
def MAGIC_SMALL : ℕ := 0x5f375a86

/-- MAGIC_NORMAL, the original constant. -/
def MAGIC_NORMAL : ℕ := 0x5f3759df

/-- MAGIC_LARGE (values > 100.0). -/
def MAGIC_LARGE : ℕ := 0x5f37599e

/-- Entry i of rsqrt_lut: the exact reference at 0.5 + i*3.5/255
(initialize_lut of hybrid_vector_rsqrt.cpp). -/
noncomputable def rsqrt_lut (i : ℕ) : ℝ := rsqrtRef (1 / 2 + i * (7 / 2) / 255)

/-- Adaptive magic-constant selection of hybrid_rsqrt (values below
1.0 use MAGIC_SMALL, above 100.0 MAGIC_LARGE, else MAGIC_NORMAL). -/
def scalarMagic (p : ℕ) : ℕ :=
  if floatVal p < 1 then MAGIC_SMALL
  else if 100 < floatVal p then MAGIC_LARGE
  else MAGIC_NORMAL

/-- Bit-manipulation path of hybrid_rsqrt: adaptive magic constant,
then two Newton-Raphson iterations with constant 1.5. -/
def hybrid_bitpath (p : ℕ) : ℚ :=
  let x : ℚ := floatVal p
  let x2 : ℚ := x / 2
  nrStep (3 / 2) x2 (nrStep (3 / 2) x2 (floatVal (bitApprox (scalarMagic p) p)))

/-- hybrid_rsqrt of hybrid_vector_rsqrt.cpp: lookup-table fast path on
[0.5, 4.0], otherwise the adaptive bit-manipulation path. -/
noncomputable def hybrid_rsqrt (p : ℕ) : ℝ :=
  let x : ℚ := floatVal p
  if 1 / 2 ≤ x ∧ x ≤ 4 then
    let idx : ℕ := (Int.floor ((x - 1 / 2) * 255 / (7 / 2))).toNat
    if idx < 256 then rsqrt_lut idx else (hybrid_bitpath p : ℝ)
  else (hybrid_bitpath p : ℝ)

/-- One SIMD lane of hybrid_rsqrt_simd: always MAGIC_NORMAL, no
lookup table, two Newton-Raphson iterations with constant 1.5. -/
def hybrid_simd_lane (p : ℕ) : ℚ :=
  let x2 : ℚ := floatVal p / 2
  nrStep (3 / 2) x2 (nrStep (3 / 2) x2 (floatVal (bitApprox MAGIC_NORMAL p)))

/-- hybrid_rsqrt_simd: full groups of 8 through the SIMD lane,
remaining tail elements through scalar hybrid_rsqrt. -/
noncomputable def hybrid_rsqrt_simd (input : List ℕ) : List ℝ :=
  let c : ℕ := input.length - input.length % 8
  (input.take c).map (fun p => (hybrid_simd_lane p : ℝ)) ++ (input.drop c).map hybrid_rsqrt

end Hybrid

namespace Ultra

/-- ultra_rsqrt of ultra_optimized_rsqrt.cpp: hardware coarse estimate
(modelled by the parameter hw, keyed on the input pattern) followed by
one Newton-Raphson iteration with constant 1.5. -/
def ultra_rsqrt (hw : ℕ → ℚ) (p : ℕ) : ℚ :=
  nrStep (3 / 2) (floatVal p / 2) (hw p)

/-- ultra_rsqrt_avx2: full groups of 8 through the 8-wide lane (same
hardware estimate plus one Newton-Raphson step per lane), tail through
scalar ultra_rsqrt. -/
def ultra_rsqrt_avx2 (hw : ℕ → ℚ) (input : List ℕ) : List ℚ :=
  let c : ℕ := input.length - input.length % 8
  (input.take c).map (fun p => nrStep (3 / 2) (floatVal p / 2) (hw p)) ++
    (input.drop c).map (ultra_rsqrt hw)

end Ultra

/-- Indexing a list built as a mapped prefix of length c concatenated
with a mapped suffix: element i comes from f below c and from g above. -/
theorem splitMap_getD {α β : Type} (f g : α → β) (l : List α) (c : ℕ) (hc : c ≤ l.length)
    (i : ℕ) (h : i < l.length) (da : α) (db : β) :
    ((l.take c).map f ++ (l.drop c).map g).getD i db =
      if i < c then f (l.getD i da) else g (l.getD i da) := by
  have hlen : ((l.take c).map f).length = c := by
    simp [List.length_take, Nat.min_eq_left hc]
  by_cases hic : i < c
  · rw [if_pos hic, List.getD_eq_getElem?_getD,
      List.getElem?_append_left (by rw [hlen]; exact hic), List.getElem?_map,
      List.getElem?_take_of_lt hic, List.getElem?_eq_getElem h,
      List.getD_eq_getElem?_getD, List.getElem?_eq_getElem h]
    rfl
  · rw [if_neg hic, List.getD_eq_getElem?_getD,
      List.getElem?_append_right (by rw [hlen]; exact Nat.le_of_not_lt hic), hlen,
      List.getElem?_map, List.getElem?_drop,
      show c + (i - c) = i from by omega, List.getElem?_eq_getElem h,
      List.getD_eq_getElem?_getD, List.getElem?_eq_getElem h]
    rfl

/-- Length of the split-map concatenation is the input length. -/
theorem splitMap_length {α β : Type} (f g : α → β) (l : List α) (c : ℕ) (hc : c ≤ l.length) :
    ((l.take c).map f ++ (l.drop c).map g).length = l.length := by
  simp [List.length_take, Nat.min_eq_left hc]
  omega


/-- Cast of a rational Newton-Raphson update into the reals. -/
theorem ratCast_nrStep (c x2 y : ℚ) :
    ((nrStep c x2 y : ℚ) : ℝ) = nrStep (c : ℝ) (x2 : ℝ) (y : ℝ) := by
  simp only [nrStep]
  push_cast
  ring

/-- Lipschitz bound for one exact Newton-Raphson step with constant
3/2 around the true root s = 1/sqrt x: on guesses within relative
error beta of s, the step contracts their difference by a factor of
at most 4 beta. -/
theorem nrStep_lipschitz (x s a b β : ℝ) (hs : 0 < s) (hx : s ^ 2 * x = 1)
    (hβ : 0 ≤ β) (hβ2 : β ≤ 2 / 3) (ha : |a - s| ≤ β * s) (hb : |b - s| ≤ β * s) :
    |nrStep (3 / 2) (x / 2) a - nrStep (3 / 2) (x / 2) b| ≤ 4 * β * |a - b| := by
  have hxval : x = 1 / s ^ 2 := by
    field_simp
    linarith [hx]
  subst hxval
  obtain ⟨ha1, ha2⟩ := abs_le.mp ha
  obtain ⟨hb1, hb2⟩ := abs_le.mp hb
  have hdiff : nrStep (3 / 2) (1 / s ^ 2 / 2) a - nrStep (3 / 2) (1 / s ^ 2 / 2) b =
      (a - b) * ((3 * s ^ 2 - (a ^ 2 + a * b + b ^ 2)) / (2 * s ^ 2)) := by
    unfold nrStep
    field_simp
    ring
  rw [hdiff, abs_mul]
  have hu1 : 0 ≤ β * s - (a - s) := by linarith
  have hu2 : 0 ≤ β * s + (a - s) := by linarith
  have hv1 : 0 ≤ β * s - (b - s) := by linarith
  have hv2 : 0 ≤ β * s + (b - s) := by linarith
  have hQ : |3 * s ^ 2 - (a ^ 2 + a * b + b ^ 2)| ≤ 8 * β * s ^ 2 := by
    rw [abs_le]
    constructor
    · nlinarith [mul_nonneg hu1 hv1, mul_nonneg hu2 hv2, mul_nonneg hu1 hv2,
        mul_nonneg hu2 hv1, mul_nonneg hu1 hu2, mul_nonneg hv1 hv2,
        mul_nonneg (mul_nonneg hβ (by linarith : (0 : ℝ) ≤ 2 - 3 * β)) (sq_nonneg s),
        mul_nonneg hs.le (by linarith : 0 ≤ 2 * β * s - ((a - s) + (b - s)))]
    · nlinarith [mul_nonneg hu1 hv1, mul_nonneg hu2 hv2, mul_nonneg hu1 hu2,
        mul_nonneg hv1 hv2, sq_nonneg ((a - s) + (b - s)), sq_nonneg (a - s),
        sq_nonneg (b - s), mul_nonneg (mul_nonneg hβ hs.le) hs.le,
        mul_nonneg hs.le (by linarith : 0 ≤ (a - s) + (b - s) + 2 * β * s)]
  have h2s : (0 : ℝ) < 2 * s ^ 2 := by positivity
  have hF : |(3 * s ^ 2 - (a ^ 2 + a * b + b ^ 2)) / (2 * s ^ 2)| ≤ 4 * β := by
    rw [abs_div, abs_of_pos h2s, div_le_iff h2s]
    calc |3 * s ^ 2 - (a ^ 2 + a * b + b ^ 2)| ≤ 8 * β * s ^ 2 := hQ
      _ = 4 * β * (2 * s ^ 2) := by ring
  calc |a - b| * |(3 * s ^ 2 - (a ^ 2 + a * b + b ^ 2)) / (2 * s ^ 2)|
      ≤ |a - b| * (4 * β) := mul_le_mul_of_nonneg_left hF (abs_nonneg _)
    _ = 4 * β * |a - b| := by ring

/-- One exact Newton-Raphson step with constant 3/2 sends a guess
within relative error beta (beta at most 1) of the true root to one
within relative error 2 beta squared. -/
theorem nrStep_error_contract (x s y β : ℝ) (hs : 0 < s) (hx : s ^ 2 * x = 1)
    (hβ : 0 ≤ β) (hβ1 : β ≤ 1) (hy : |y - s| ≤ β * s) :
    |nrStep (3 / 2) (x / 2) y - s| ≤ 2 * β ^ 2 * s := by
  obtain ⟨h1, h2⟩ := abs_le.mp hy
  rw [nrStep_error_formula x s y hs hx, neg_div, abs_neg, abs_div, abs_mul,
    abs_of_nonneg (sq_nonneg (y - s)),
    abs_of_nonneg (by nlinarith [mul_nonneg hβ hs.le] : (0 : ℝ) ≤ 3 * s + (y - s)),
    abs_of_pos (by positivity : (0 : ℝ) < 2 * s ^ 2),
    div_le_iff (by positivity : (0 : ℝ) < 2 * s ^ 2)]
  have hsq : (y - s) ^ 2 ≤ (β * s) ^ 2 := by
    rw [← sq_abs (y - s)]
    exact pow_le_pow_left (abs_nonneg _) hy 2
  calc (y - s) ^ 2 * (3 * s + (y - s))
      ≤ (β * s) ^ 2 * (4 * s) := by
        apply mul_le_mul hsq (by nlinarith [mul_nonneg hβ hs.le])
          (by nlinarith [mul_nonneg hβ hs.le]) (sq_nonneg _)
    _ ≤ 2 * β ^ 2 * s * (2 * s ^ 2) := by nlinarith [sq_nonneg (β * s)]

/-- C5 (amended): outside the scalar lookup-table fast-path range
[0.5, 4], the SIMD lane and the scalar path of hybrid_rsqrt run the
same two-Newton-step formula and differ only through their bit-hack
initial guesses (equal whenever the scalar magic constant is
MAGIC_NORMAL, offset by the magic-constant difference otherwise);
provided both guesses are within relative error 1/20 of the true root
s = 1/sqrt x, the two results differ by at most 1/250 of the
initial-guess difference — zero when the constants agree, and for the
range-specific constants (guess gap about 2e-5 relative) about 1e-8
relative, below the last-bit rounding tolerance the claim grants.
Inside [0.5, 4] the paths genuinely diverge (see the counterexample
theorem). -/
theorem hybrid_simd_matches_scalar (p : ℕ) (s : ℝ)
    (hlut : ¬(1 / 2 ≤ floatVal p ∧ floatVal p ≤ 4)) (hs : 0 < s)
    (hx : s ^ 2 * ((floatVal p : ℚ) : ℝ) = 1)
    (hA : |((floatVal (bitApprox (Hybrid.scalarMagic p) p) : ℚ) : ℝ) - s| ≤ s / 20)
    (hB : |((floatVal (bitApprox Hybrid.MAGIC_NORMAL p) : ℚ) : ℝ) - s| ≤ s / 20) :
    |Hybrid.hybrid_rsqrt p - (Hybrid.hybrid_simd_lane p : ℝ)| ≤
      |((floatVal (bitApprox (Hybrid.scalarMagic p) p) : ℚ) : ℝ) -
        ((floatVal (bitApprox Hybrid.MAGIC_NORMAL p) : ℚ) : ℝ)| / 250 := by
  have hscalar : Hybrid.hybrid_rsqrt p = ((Hybrid.hybrid_bitpath p : ℚ) : ℝ) := by
    simp only [Hybrid.hybrid_rsqrt]
    rw [if_neg hlut]
  have hbitpath : ((Hybrid.hybrid_bitpath p : ℚ) : ℝ) =
      nrStep (3 / 2) (((floatVal p : ℚ) : ℝ) / 2)
        (nrStep (3 / 2) (((floatVal p : ℚ) : ℝ) / 2)
          ((floatVal (bitApprox (Hybrid.scalarMagic p) p) : ℚ) : ℝ)) := by
    simp only [Hybrid.hybrid_bitpath, ratCast_nrStep]
    push_cast
    ring_nf
  have hlane : ((Hybrid.hybrid_simd_lane p : ℚ) : ℝ) =
      nrStep (3 / 2) (((floatVal p : ℚ) : ℝ) / 2)
        (nrStep (3 / 2) (((floatVal p : ℚ) : ℝ) / 2)
          ((floatVal (bitApprox Hybrid.MAGIC_NORMAL p) : ℚ) : ℝ)) := by
    simp only [Hybrid.hybrid_simd_lane, ratCast_nrStep]
    push_cast
    ring_nf
  rw [hscalar, hbitpath, hlane]
  have hA20 : |((floatVal (bitApprox (Hybrid.scalarMagic p) p) : ℚ) : ℝ) - s| ≤ 1 / 20 * s := by
    linarith [hA]
  have hB20 : |((floatVal (bitApprox Hybrid.MAGIC_NORMAL p) : ℚ) : ℝ) - s| ≤ 1 / 20 * s := by
    linarith [hB]
  have hA1 := nrStep_error_contract ((floatVal p : ℚ) : ℝ) s
    ((floatVal (bitApprox (Hybrid.scalarMagic p) p) : ℚ) : ℝ) (1 / 20) hs hx
    (by norm_num) (by norm_num) hA20
  have hB1 := nrStep_error_contract ((floatVal p : ℚ) : ℝ) s
    ((floatVal (bitApprox Hybrid.MAGIC_NORMAL p) : ℚ) : ℝ) (1 / 20) hs hx
    (by norm_num) (by norm_num) hB20
  have hL1 := nrStep_lipschitz ((floatVal p : ℚ) : ℝ) s
    ((floatVal (bitApprox (Hybrid.scalarMagic p) p) : ℚ) : ℝ)
    ((floatVal (bitApprox Hybrid.MAGIC_NORMAL p) : ℚ) : ℝ) (1 / 20) hs hx
    (by norm_num) (by norm_num) hA20 hB20
  have hL2 := nrStep_lipschitz ((floatVal p : ℚ) : ℝ) s
    (nrStep (3 / 2) (((floatVal p : ℚ) : ℝ) / 2)
      ((floatVal (bitApprox (Hybrid.scalarMagic p) p) : ℚ) : ℝ))
    (nrStep (3 / 2) (((floatVal p : ℚ) : ℝ) / 2)
      ((floatVal (bitApprox Hybrid.MAGIC_NORMAL p) : ℚ) : ℝ)) (1 / 200) hs hx
    (by norm_num) (by norm_num)
    (by nlinarith [hA1]) (by nlinarith [hB1])
  calc |nrStep (3 / 2) (((floatVal p : ℚ) : ℝ) / 2)
        (nrStep (3 / 2) (((floatVal p : ℚ) : ℝ) / 2)
          ((floatVal (bitApprox (Hybrid.scalarMagic p) p) : ℚ) : ℝ)) -
      nrStep (3 / 2) (((floatVal p : ℚ) : ℝ) / 2)
        (nrStep (3 / 2) (((floatVal p : ℚ) : ℝ) / 2)
          ((floatVal (bitApprox Hybrid.MAGIC_NORMAL p) : ℚ) : ℝ))|
      ≤ 4 * (1 / 200) * |nrStep (3 / 2) (((floatVal p : ℚ) : ℝ) / 2)
          ((floatVal (bitApprox (Hybrid.scalarMagic p) p) : ℚ) : ℝ) -
        nrStep (3 / 2) (((floatVal p : ℚ) : ℝ) / 2)
          ((floatVal (bitApprox Hybrid.MAGIC_NORMAL p) : ℚ) : ℝ)| := hL2
    _ ≤ 4 * (1 / 200) * (4 * (1 / 20) *
        |((floatVal (bitApprox (Hybrid.scalarMagic p) p) : ℚ) : ℝ) -
          ((floatVal (bitApprox Hybrid.MAGIC_NORMAL p) : ℚ) : ℝ)|) := by
        have h0 : (0 : ℝ) ≤ 4 * (1 / 200) := by norm_num
        exact mul_le_mul_of_nonneg_left hL1 h0
    _ = |((floatVal (bitApprox (Hybrid.scalarMagic p) p) : ℚ) : ℝ) -
          ((floatVal (bitApprox Hybrid.MAGIC_NORMAL p) : ℚ) : ℝ)| / 250 := by ring

/-- C5 witness: the float 0.25f (pattern 0x3E800000), outside the
lookup-table range, where the scalar path uses MAGIC_SMALL and the
lane MAGIC_NORMAL; both guesses are within 3.4 percent of the true
root 2, and the theorem bounds the result difference by 1/250 of the
guess gap. -/
theorem hybrid_simd_matches_scalar_witness :
    ¬((1 : ℚ) / 2 ≤ floatVal 0x3E800000 ∧ floatVal 0x3E800000 ≤ 4) ∧
    (0 : ℝ) < 2 ∧
    (2 : ℝ) ^ 2 * ((floatVal 0x3E800000 : ℚ) : ℝ) = 1 ∧
    |((floatVal (bitApprox (Hybrid.scalarMagic 0x3E800000) 0x3E800000) : ℚ) : ℝ) - 2| ≤
      2 / 20 ∧
    |((floatVal (bitApprox Hybrid.MAGIC_NORMAL 0x3E800000) : ℚ) : ℝ) - 2| ≤ 2 / 20 ∧
    |Hybrid.hybrid_rsqrt 0x3E800000 - (Hybrid.hybrid_simd_lane 0x3E800000 : ℝ)| ≤
      |((floatVal (bitApprox (Hybrid.scalarMagic 0x3E800000) 0x3E800000) : ℚ) : ℝ) -
        ((floatVal (bitApprox Hybrid.MAGIC_NORMAL 0x3E800000) : ℚ) : ℝ)| / 250 := by
  have hval : floatVal 0x3E800000 = 1 / 4 := by norm_num [floatVal, expf, mant]
  have hmagic : Hybrid.scalarMagic 0x3E800000 = Hybrid.MAGIC_SMALL := by
    simp only [Hybrid.scalarMagic]
    rw [hval, if_pos (by norm_num : (1 : ℚ) / 4 < 1)]
  have haq : floatVal (bitApprox Hybrid.MAGIC_SMALL 0x3E800000) = 8105283 / 4194304 := by
    norm_num [floatVal, expf, mant, bitApprox, usub32, shr1, Hybrid.MAGIC_SMALL]
  have hbq : floatVal (bitApprox Hybrid.MAGIC_NORMAL 0x3E800000) = 16210399 / 8388608 := by
    norm_num [floatVal, expf, mant, bitApprox, usub32, shr1, Hybrid.MAGIC_NORMAL]
  have hlut : ¬((1 : ℚ) / 2 ≤ floatVal 0x3E800000 ∧ floatVal 0x3E800000 ≤ 4) := by
    rw [hval]
    norm_num
  have hx : (2 : ℝ) ^ 2 * ((floatVal 0x3E800000 : ℚ) : ℝ) = 1 := by
    rw [hval]
    push_cast
    norm_num
  have hA : |((floatVal (bitApprox (Hybrid.scalarMagic 0x3E800000) 0x3E800000) : ℚ) : ℝ) - 2| ≤
      2 / 20 := by
    rw [hmagic, haq]
    push_cast
    rw [abs_le]
    constructor <;> norm_num
  have hB : |((floatVal (bitApprox Hybrid.MAGIC_NORMAL 0x3E800000) : ℚ) : ℝ) - 2| ≤ 2 / 20 := by
    rw [hbq]
    push_cast
    rw [abs_le]
    constructor <;> norm_num
  exact ⟨hlut, by norm_num, hx, hA, hB,
    hybrid_simd_matches_scalar 0x3E800000 2 hlut (by norm_num) hx hA hB⟩

/-- C5 counterexample: at the float 33/64 = 0.515625 (pattern
0x3F040000) the scalar hybrid_rsqrt returns lookup-table entry 1, the
exact reciprocal square root of the bucket representative 131/255,
while the SIMD lane computes the bit-hack plus two Newton-Raphson
steps; the two results differ by more than 1/1000, vastly exceeding
any last-bit rounding tolerance (one ulp here is about 1.7e-7). -/
theorem hybrid_simd_scalar_divergence :
    1 / 1000 < |Hybrid.hybrid_rsqrt 0x3F040000 - (Hybrid.hybrid_simd_lane 0x3F040000 : ℝ)| := by
  have hx : floatVal 0x3F040000 = 33 / 64 := by norm_num [floatVal, expf, mant]
  have hscalar : Hybrid.hybrid_rsqrt 0x3F040000 = (Real.sqrt ((131 : ℝ) / 255))⁻¹ := by
    simp only [Hybrid.hybrid_rsqrt]
    rw [hx, if_pos (by norm_num : (1 : ℚ) / 2 ≤ 33 / 64 ∧ (33 : ℚ) / 64 ≤ 4)]
    rw [show ((33 : ℚ) / 64 - 1 / 2) * 255 / (7 / 2) = 255 / 224 from by norm_num]
    rw [show Int.floor ((255 : ℚ) / 224) = 1 from by
      rw [Int.floor_eq_iff]
      constructor <;> norm_num]
    rw [if_pos (by norm_num : Int.toNat 1 < 256)]
    simp only [Hybrid.rsqrt_lut, rsqrtRef, Int.toNat_one]
    rw [show ((1 : ℚ) / 2 + (1 : ℕ) * (7 / 2) / 255) = 131 / 255 from by norm_num]
    norm_num
  have hlaneq : Hybrid.hybrid_simd_lane 0x3F040000 < 8719959 / 6250000 - 1 / 1000 := by
    norm_num [Hybrid.hybrid_simd_lane, Hybrid.MAGIC_NORMAL, nrStep, floatVal, expf, mant,
      bitApprox, usub32, shr1]
  have hsqrt_pos : 0 < Real.sqrt ((131 : ℝ) / 255) := Real.sqrt_pos.mpr (by norm_num)
  have hA : (8719959 : ℝ) / 6250000 < (Real.sqrt ((131 : ℝ) / 255))⁻¹ := by
    have h1 : Real.sqrt ((131 : ℝ) / 255) < ((8719959 : ℝ) / 6250000)⁻¹ := by
      rw [Real.sqrt_lt' (by norm_num)]
      norm_num
    have h2 := inv_lt_inv_of_lt hsqrt_pos h1
    rwa [inv_inv] at h2
  have hBlt : (Hybrid.hybrid_simd_lane 0x3F040000 : ℝ) <
      ((8719959 / 6250000 - 1 / 1000 : ℚ) : ℝ) := Rat.cast_lt.mpr hlaneq
  push_cast at hBlt
  rw [hscalar]
  have hgap : 1 / 1000 <
      (Real.sqrt ((131 : ℝ) / 255))⁻¹ - (Hybrid.hybrid_simd_lane 0x3F040000 : ℝ) := by
    linarith
  calc (1 : ℝ) / 1000
      < (Real.sqrt ((131 : ℝ) / 255))⁻¹ - (Hybrid.hybrid_simd_lane 0x3F040000 : ℝ) := hgap
    _ ≤ |(Real.sqrt ((131 : ℝ) / 255))⁻¹ - (Hybrid.hybrid_simd_lane 0x3F040000 : ℝ)| :=
        le_abs_self _

/-- C6 (amended): ultra_rsqrt_avx2 is order- and length-preserving and
fully per-element: it writes exactly count results and output[i] is the
scalar ultra_rsqrt kernel value of input[i] for every i (the 8-wide
lane applies the same estimate-plus-one-Newton-step formula as the
scalar path, and the final count mod 8 elements go through the scalar
path itself).  The corresponding per-element independence fails for
NeuralRsqrt::compute_simd, whose tail is evaluated by the stateful
adaptive scalar compute (see the counterexample theorem). -/
theorem ultra_rsqrt_avx2_elementwise (hw : ℕ → ℚ) (input : List ℕ) (i : ℕ)
    (h : i < input.length) :
    (Ultra.ultra_rsqrt_avx2 hw input).length = input.length ∧
    (Ultra.ultra_rsqrt_avx2 hw input).getD i 0 = Ultra.ultra_rsqrt hw (input.getD i 0) := by
  have hc : input.length - input.length % 8 ≤ input.length := Nat.sub_le _ _
  constructor
  · exact splitMap_length _ _ input _ hc
  · rw [Ultra.ultra_rsqrt_avx2,
      splitMap_getD (fun p => nrStep (3 / 2) (floatVal p / 2) (hw p)) (Ultra.ultra_rsqrt hw)
        input _ hc i h 0 0]
    split <;> rfl

/-- C6 witness: a nine-element batch (one tail element) evaluated with
a concrete hardware-estimate function. -/
theorem ultra_rsqrt_avx2_elementwise_witness :
    8 < (List.replicate 9 0x3F800000).length ∧
      ((Ultra.ultra_rsqrt_avx2 (fun _ => 1) (List.replicate 9 0x3F800000)).length =
          (List.replicate 9 0x3F800000).length ∧
        (Ultra.ultra_rsqrt_avx2 (fun _ => 1) (List.replicate 9 0x3F800000)).getD 8 0 =
          Ultra.ultra_rsqrt (fun _ => 1) ((List.replicate 9 0x3F800000).getD 8 0)) :=
  ⟨by decide, ultra_rsqrt_avx2_elementwise (fun _ => 1) (List.replicate 9 0x3F800000) 8
    (by decide)⟩

namespace Neural

/-- Adaptive precision levels of neural_inspired_rsqrt.cpp. -/
inductive PrecisionLevel where
  | ULTRA_FAST
  | FAST
  | PRECISE
  | ULTRA_PRECISE
deriving DecidableEq

/-- Numeric rank of a precision level, for the C comparison
precision > ULTRA_FAST on the enum. -/
def precRank : PrecisionLevel → ℕ
  | .ULTRA_FAST => 0
  | .FAST => 1
  | .PRECISE => 2
  | .ULTRA_PRECISE => 3

/-- Mutable statistics state of a NeuralRsqrt instance: the 256-entry
input history ring buffer and its write index. -/
structure NState where
  hist : Fin 256 → ℚ
  idx : Fin 256

/-- State of the zero-initialised static NeuralRsqrt instance. -/
def initState : NState := ⟨fun _ => 0, 0⟩

/-- update_stats: write the input at the current ring index and
advance the index (wrapping at 256, the mask 255 of the source). -/
def update_stats (s : NState) (x : ℚ) : NState :=
  ⟨Function.update s.hist s.idx x, s.idx + 1⟩

/-- Variance recomputed by update_stats over the whole history:
sum of squares over 256 minus the square of the mean. -/
def variance (h : Fin 256 → ℚ) : ℚ :=
  (∑ i : Fin 256, h i * h i) / 256 - (∑ i : Fin 256, h i) / 256 * ((∑ i : Fin 256, h i) / 256)

/-- Exact binary32 value of the threshold literal 0.01f. -/
def threshold01 : ℚ := 5368709 / 536870912

/-- Entry i of poly_lut: the exact reference at 0.25 + i*3.75/1023
(the NeuralRsqrt constructor). -/
noncomputable def polyLut (i : ℕ) : ℝ := rsqrtRef (1 / 4 + i * (15 / 4) / 1023)

/-- Result of the lookup-table fast path at a given selected precision
(one Newton-Raphson step on the table value unless ULTRA_PRECISE). -/
noncomputable def lutResult (prec : PrecisionLevel) (x : ℚ) (idx : ℕ) : ℝ :=
  if prec = PrecisionLevel.ULTRA_PRECISE then polyLut idx
  else polyLut idx * ((3 : ℝ) / 2 - (x : ℝ) / 2 * polyLut idx * polyLut idx)

/-- Result of the bit-manipulation path: exponent-selected magic,
polynomial correction, then 3/2/1 Newton-Raphson iterations for
PRECISE/FAST/ULTRA_FAST (the fall-through switch), or the exact
hardware value for ULTRA_PRECISE. -/
noncomputable def bitResult (prec : PrecisionLevel) (p : ℕ) : ℝ :=
  let x : ℚ := floatVal p
  let y0 : ℚ := floatVal (bitApprox (selectMagic p) p)
  let err : ℚ := 1 - x * y0 * y0
  let y : ℚ := y0 * (polyA + err * (polyB + err * polyC))
  match prec with
  | .ULTRA_PRECISE => (Real.sqrt (x : ℝ))⁻¹
  | .PRECISE => ((refine (3 / 2) x y 3 : ℚ) : ℝ)
  | .FAST => ((refine (3 / 2) x y 2 : ℚ) : ℝ)
  | .ULTRA_FAST => ((refine (3 / 2) x y 1 : ℚ) : ℝ)

/-- Value returned by NeuralRsqrt::compute under global precision g in
state s: statistics are updated first, the effective precision drops
to ULTRA_FAST on low variance, then either the lookup-table fast path
(inputs in [0.25, 4]) or the bit-manipulation path runs. -/
noncomputable def computeResult (g : PrecisionLevel) (s : NState) (p : ℕ) : ℝ :=
  let x : ℚ := floatVal p
  let prec : PrecisionLevel :=
    if variance (update_stats s x).hist < threshold01 ∧ 0 < precRank g then
      PrecisionLevel.ULTRA_FAST
    else g
  if 1 / 4 ≤ x ∧ x ≤ 4 then
    if (Int.floor ((x - 1 / 4) * 1023 / (15 / 4))).toNat < 1024 then
      lutResult prec x ((Int.floor ((x - 1 / 4) * 1023 / (15 / 4))).toNat)
    else bitResult prec p
  else bitResult prec p

/-- NeuralRsqrt::compute: the returned value together with the updated
statistics state. -/
noncomputable def compute (g : PrecisionLevel) (s : NState) (p : ℕ) : ℝ × NState :=
  (computeResult g s p, update_stats s (floatVal p))

/-- Sequential evaluation of compute over a list, threading the state
(the scalar tail loop of compute_simd). -/
noncomputable def computeList (g : PrecisionLevel) : NState → List ℕ → List ℝ
  | _, [] => []
  | s, p :: ps => (compute g s p).1 :: computeList g (compute g s p).2 ps

/-- One SIMD lane of NeuralRsqrt::compute_simd: always the medium
magic constant, polynomial correction, two Newton-Raphson iterations;
no lookup table and no statistics update. -/
def simdLane (p : ℕ) : ℚ :=
  let x : ℚ := floatVal p
  let y0 : ℚ := floatVal (bitApprox mediumC p)
  let err : ℚ := 1 - x * y0 * y0
  let y : ℚ := y0 * (polyA + err * (polyB + err * polyC))
  refine (3 / 2) x y 2

/-- NeuralRsqrt::compute_simd: full groups of 8 through the SIMD lane,
remaining tail elements through the stateful scalar compute. -/
noncomputable def compute_simd (g : PrecisionLevel) (s : NState) (input : List ℕ) :
    List ℝ :=
  let c : ℕ := input.length - input.length % 8
  (input.take c).map (fun p => (simdLane p : ℝ)) ++ computeList g s (input.drop c)

end Neural

set_option maxRecDepth 4000 in
/-- Sum of a pointwise function of a history that is zero except at
indices 0 and 1 (the states reached after two update_stats calls from
the zero-initialised state). -/
theorem sum_g_update2 (g : ℚ → ℚ) (hg : g 0 = 0) (a b : ℚ) :
    ∑ i : Fin 256, g (Function.update (Function.update (fun _ : Fin 256 => (0 : ℚ)) 0 a) 1 b i) =
      g a + g b := by
  classical
  rw [← Finset.sum_erase_add _ _ (Finset.mem_univ (1 : Fin 256))]
  have h1 : ∀ i ∈ Finset.univ.erase (1 : Fin 256),
      g (Function.update (Function.update (fun _ : Fin 256 => (0 : ℚ)) 0 a) 1 b i) =
        g (Function.update (fun _ : Fin 256 => (0 : ℚ)) 0 a i) := by
    intro i hi
    rw [Function.update_noteq (Finset.ne_of_mem_erase hi)]
  rw [Finset.sum_congr rfl h1, Function.update_same]
  congr 1
  rw [Finset.sum_eq_single_of_mem (0 : Fin 256)
    (Finset.mem_erase.mpr ⟨by decide, Finset.mem_univ _⟩)]
  · rw [Function.update_same]
  · intro i _ hi0
    rw [Function.update_noteq hi0]
    exact hg

/-- Plain sum of such a two-entry history. -/
theorem sum_update2 (a b : ℚ) :
    ∑ i : Fin 256, Function.update (Function.update (fun _ : Fin 256 => (0 : ℚ)) 0 a) 1 b i =
      a + b := by
  simpa using sum_g_update2 id rfl a b

/-- Sum of squares of such a two-entry history. -/
theorem sum_sq_update2 (a b : ℚ) :
    ∑ i : Fin 256,
        Function.update (Function.update (fun _ : Fin 256 => (0 : ℚ)) 0 a) 1 b i *
          Function.update (Function.update (fun _ : Fin 256 => (0 : ℚ)) 0 a) 1 b i =
      a * a + b * b := by
  simpa using sum_g_update2 (fun t => t * t) (by norm_num) a b

set_option maxRecDepth 40000 in
/-- C6 counterexample: NeuralRsqrt::compute_simd on two ten-element
batches that agree at position 9 (both 0.125f) but differ at position
8 (16.0f versus 0.125f).  Both tail elements run through the stateful
scalar compute; the history written by element 8 changes the variance
seen by element 9, which flips the adaptive precision between FAST
(two Newton-Raphson steps) and ULTRA_FAST (one step), so output 9
differs although input 9 is identical: output[i] is not a function of
input[i] alone. -/
theorem neural_simd_tail_coupling :
    (List.replicate 8 (0x3F800000 : ℕ) ++ [0x41800000, 0x3E000000]).getD 9 0 =
      (List.replicate 8 (0x3F800000 : ℕ) ++ [0x3E000000, 0x3E000000]).getD 9 0 ∧
    (Neural.compute_simd Neural.PrecisionLevel.FAST Neural.initState
        (List.replicate 8 (0x3F800000 : ℕ) ++ [0x41800000, 0x3E000000])).getD 9 0 ≠
      (Neural.compute_simd Neural.PrecisionLevel.FAST Neural.initState
        (List.replicate 8 (0x3F800000 : ℕ) ++ [0x3E000000, 0x3E000000])).getD 9 0 := by
  have hred : ∀ a b : ℕ,
      (Neural.compute_simd Neural.PrecisionLevel.FAST Neural.initState
          (List.replicate 8 (0x3F800000 : ℕ) ++ [a, b])).getD 9 0 =
        (Neural.compute Neural.PrecisionLevel.FAST
          (Neural.compute Neural.PrecisionLevel.FAST Neural.initState a).2 b).1 := by
    intro a b
    simp only [Neural.compute_simd, List.length_append, List.length_replicate,
      List.length_cons, List.length_nil]
    rw [show (8 + (1 + (1 + 0)) : ℕ) - (8 + (1 + (1 + 0))) % 8 = 8 from by norm_num]
    rw [List.take_left' (by simp), List.drop_left' (by simp)]
    rw [List.getD_eq_getElem?_getD, List.getElem?_append_right (by simp)]
    simp [Neural.computeList]
  refine ⟨rfl, ?_⟩
  rw [hred, hred]
  have hxa : floatVal 0x41800000 = 16 := by norm_num [floatVal, expf, mant]
  have hxe : floatVal 0x3E000000 = 1 / 8 := by norm_num [floatVal, expf, mant]
  have hvarA : Neural.variance
      (Function.update (Function.update (fun _ : Fin 256 => (0 : ℚ)) 0 16) 1 (1 / 8)) =
      4177919 / 4194304 := by
    simp only [Neural.variance]
    rw [sum_update2, sum_sq_update2]
    norm_num
  have hvarB : Neural.variance
      (Function.update (Function.update (fun _ : Fin 256 => (0 : ℚ)) 0 (1 / 8)) 1 (1 / 8)) =
      127 / 1048576 := by
    simp only [Neural.variance]
    rw [sum_update2, sum_sq_update2]
    norm_num
  have hsA : (Neural.compute Neural.PrecisionLevel.FAST Neural.initState 0x41800000).2 =
      ⟨Function.update (fun _ : Fin 256 => (0 : ℚ)) 0 16, 1⟩ := by
    show Neural.update_stats Neural.initState (floatVal 0x41800000) = _
    rw [hxa]
    rfl
  have hsB : (Neural.compute Neural.PrecisionLevel.FAST Neural.initState 0x3E000000).2 =
      ⟨Function.update (fun _ : Fin 256 => (0 : ℚ)) 0 (1 / 8), 1⟩ := by
    show Neural.update_stats Neural.initState (floatVal 0x3E000000) = _
    rw [hxe]
    rfl
  rw [hsA, hsB]
  have houtA : (Neural.compute Neural.PrecisionLevel.FAST
      ⟨Function.update (fun _ : Fin 256 => (0 : ℚ)) 0 16, 1⟩ 0x3E000000).1 =
      Neural.bitResult Neural.PrecisionLevel.FAST 0x3E000000 := by
    show Neural.computeResult _ _ _ = _
    simp only [Neural.computeResult, Neural.update_stats]
    rw [hxe, if_neg (by norm_num : ¬((1 : ℚ) / 4 ≤ 1 / 8 ∧ (1 : ℚ) / 8 ≤ 4))]
    simp only [hvarA]
    norm_num [Neural.threshold01]
  have houtB : (Neural.compute Neural.PrecisionLevel.FAST
      ⟨Function.update (fun _ : Fin 256 => (0 : ℚ)) 0 (1 / 8), 1⟩ 0x3E000000).1 =
      Neural.bitResult Neural.PrecisionLevel.ULTRA_FAST 0x3E000000 := by
    show Neural.computeResult _ _ _ = _
    simp only [Neural.computeResult, Neural.update_stats]
    rw [hxe, if_neg (by norm_num : ¬((1 : ℚ) / 4 ≤ 1 / 8 ∧ (1 : ℚ) / 8 ≤ 4))]
    simp only [hvarB]
    norm_num [Neural.threshold01, Neural.precRank]
  rw [houtA, houtB]
  simp only [Neural.bitResult]
  rw [ne_eq, Rat.cast_inj]
  have hbp : bitApprox (Neural.selectMagic 0x3E000000) 0x3E000000 = 0x403759DF := by
    norm_num [Neural.selectMagic, expf, Neural.mediumC, bitApprox, usub32, shr1]
  have hy0 : floatVal 0x403759DF = 12016095 / 4194304 := by norm_num [floatVal, expf, mant]
  rw [hbp, hy0, hxe]
  have h2 : ∀ y : ℚ, refine (3 / 2) (1 / 8) y 2 =
      nrStep (3 / 2) (1 / 8 / 2) (nrStep (3 / 2) (1 / 8 / 2) y) := fun y => rfl
  have h1 : ∀ y : ℚ, refine (3 / 2) (1 / 8) y 1 = nrStep (3 / 2) (1 / 8 / 2) y := fun y => rfl
  rw [h2, h1]
  norm_num [nrStep, Neural.polyA, Neural.polyB, Neural.polyC]

namespace GameEngine

/-- GameEngineFastRSqrt::normalize_vec3: scale the three components by
compute applied to the squared norm.  The model takes the exact
component values together with the bit pattern p of the float holding
norm_sq (the two are tied by hypotheses where needed). -/
def normalize_vec3 (v : ℚ × ℚ × ℚ) (p : ℕ) : ℚ × ℚ × ℚ :=
  let inv : ℚ := compute p
  (v.1 * inv, v.2.1 * inv, v.2.2 * inv)

end GameEngine

/-- C7: for every non-degenerate vector v whose squared length is the
value of the pattern p, if the kernel output at p has relative error
at most eps against the exact reciprocal square root (the error bound
eps(profile) of the active profile), then the Euclidean length of
normalize_vec3 v is within eps of 1. -/
theorem normalize_vec3_length (v : ℚ × ℚ × ℚ) (p : ℕ) (eps : ℝ)
    (hrep : (floatVal p : ℚ) = v.1 ^ 2 + v.2.1 ^ 2 + v.2.2 ^ 2)
    (hpos : 0 < floatVal p)
    (hinv : 0 ≤ GameEngine.compute p)
    (hacc : |(GameEngine.compute p : ℝ) * Real.sqrt ((floatVal p : ℚ) : ℝ) - 1| ≤ eps) :
    |Real.sqrt (((GameEngine.normalize_vec3 v p).1 : ℝ) ^ 2 +
        ((GameEngine.normalize_vec3 v p).2.1 : ℝ) ^ 2 +
        ((GameEngine.normalize_vec3 v p).2.2 : ℝ) ^ 2) - 1| ≤ eps := by
  have hrepR : ((floatVal p : ℚ) : ℝ) = (v.1 : ℝ) ^ 2 + (v.2.1 : ℝ) ^ 2 + (v.2.2 : ℝ) ^ 2 := by
    exact_mod_cast hrep
  have hsum : ((GameEngine.normalize_vec3 v p).1 : ℝ) ^ 2 +
      ((GameEngine.normalize_vec3 v p).2.1 : ℝ) ^ 2 +
      ((GameEngine.normalize_vec3 v p).2.2 : ℝ) ^ 2 =
      ((GameEngine.compute p : ℝ)) ^ 2 * ((floatVal p : ℚ) : ℝ) := by
    simp only [GameEngine.normalize_vec3]
    push_cast
    rw [hrepR]
    ring
  have hc : (0 : ℝ) ≤ (GameEngine.compute p : ℝ) := by exact_mod_cast hinv
  rw [hsum, Real.sqrt_mul (sq_nonneg _), Real.sqrt_sq hc]
  exact hacc

/-- C7 witness: the vector (3, 4, 0) with squared length 25 (pattern
0x41C80000) and the profile bound 1/100; the kernel's relative error
at 25 is about 3.6e-6, well inside the bound. -/
theorem normalize_vec3_length_witness :
    (floatVal 0x41C80000 : ℚ) = 3 ^ 2 + 4 ^ 2 + 0 ^ 2 ∧
    0 < floatVal 0x41C80000 ∧
    0 ≤ GameEngine.compute 0x41C80000 ∧
    |(GameEngine.compute 0x41C80000 : ℝ) * Real.sqrt ((floatVal 0x41C80000 : ℚ) : ℝ) - 1| ≤
      1 / 100 ∧
    |Real.sqrt (((GameEngine.normalize_vec3 (3, 4, 0) 0x41C80000).1 : ℝ) ^ 2 +
        ((GameEngine.normalize_vec3 (3, 4, 0) 0x41C80000).2.1 : ℝ) ^ 2 +
        ((GameEngine.normalize_vec3 (3, 4, 0) 0x41C80000).2.2 : ℝ) ^ 2) - 1| ≤ 1 / 100 := by
  have hrep : (floatVal 0x41C80000 : ℚ) = 3 ^ 2 + 4 ^ 2 + 0 ^ 2 := by
    norm_num [floatVal, expf, mant]
  have hpos : (0 : ℚ) < floatVal 0x41C80000 := by rw [hrep]; norm_num
  have hinv : 0 ≤ GameEngine.compute 0x41C80000 := by
    norm_num [GameEngine.compute, GameEngine.NR1, GameEngine.NR2, GameEngine.MAGIC, nrStep,
      floatVal, expf, mant, bitApprox, usub32, shr1]
  have hsqrt : Real.sqrt ((floatVal 0x41C80000 : ℚ) : ℝ) = 5 := by
    rw [show ((floatVal 0x41C80000 : ℚ) : ℝ) = (5 : ℝ) ^ 2 from by
      rw [hrep]; norm_num]
    exact Real.sqrt_sq (by norm_num)
  have haccq : |GameEngine.compute 0x41C80000 * 5 - 1| ≤ (1 / 100 : ℚ) := by
    rw [abs_le]
    constructor <;>
      norm_num [GameEngine.compute, GameEngine.NR1, GameEngine.NR2, GameEngine.MAGIC, nrStep,
        floatVal, expf, mant, bitApprox, usub32, shr1]
  have hacc : |(GameEngine.compute 0x41C80000 : ℝ) *
      Real.sqrt ((floatVal 0x41C80000 : ℚ) : ℝ) - 1| ≤ 1 / 100 := by
    rw [hsqrt]
    have hcast0 : ((|GameEngine.compute 0x41C80000 * 5 - 1| : ℚ) : ℝ) ≤ ((1 / 100 : ℚ) : ℝ) :=
      Rat.cast_le.mpr haccq
    push_cast at hcast0
    exact hcast0
  exact ⟨hrep, hpos, hinv, hacc,
    normalize_vec3_length (3, 4, 0) 0x41C80000 (1 / 100) hrep hpos hinv hacc⟩

/-- C8: on the zero vector the kernel does not produce NaN or
infinity: the bit pattern of 0.0f is 0, the Newton-Raphson term
x/2 * y * y vanishes, the intermediate inverse length stays a finite
positive value (about 3e19, far below the float range limit 2^128),
and normalize_vec3 (0,0,0) returns exactly (0,0,0). -/
theorem normalize_vec3_zero :
    GameEngine.normalize_vec3 (0, 0, 0) 0 = (0, 0, 0) ∧
    0 < GameEngine.compute 0 ∧ GameEngine.compute 0 < 2 ^ 127 := by
  refine ⟨?_, ?_, ?_⟩
  · simp [GameEngine.normalize_vec3]
  · norm_num [GameEngine.compute, GameEngine.NR1, GameEngine.NR2, GameEngine.MAGIC, nrStep,
      floatVal, expf, mant, bitApprox, usub32, shr1]
  · norm_num [GameEngine.compute, GameEngine.NR1, GameEngine.NR2, GameEngine.MAGIC, nrStep,
      floatVal, expf, mant, bitApprox, usub32, shr1]

namespace GameEngine

/-- Bit pattern of the float 0.0625*i + 0.25 for i < 16 (the lookup
table representatives of the GameEngineFastRSqrt constructor), written
out by exponent range; repPattern_val proves it against floatVal. -/
def repPattern (i : ℕ) : ℕ :=
  if i < 4 then 125 * 2 ^ 23 + i * 2 ^ 21
  else if i < 12 then 126 * 2 ^ 23 + (i - 4) * 2 ^ 20
  else 127 * 2 ^ 23 + (i - 12) * 2 ^ 19

/-- Entry i of correction_lut: the exact reference divided by the
kernel's own Q_rsqrt approximation at the bucket representative
(the GameEngineFastRSqrt constructor). -/
noncomputable def correction_lut (i : ℕ) : ℝ :=
  rsqrtRef (1 / 16 * i + 1 / 4) / (Q_rsqrt (repPattern i) : ℝ)

end GameEngine

/-- Correctness of the explicit representative patterns: pattern i
denotes exactly the value 0.0625*i + 0.25. -/
theorem repPattern_val (i : ℕ) (hi : i < 16) :
    floatVal (GameEngine.repPattern i) = 1 / 16 * i + 1 / 4 := by
  interval_cases i <;> norm_num [GameEngine.repPattern, floatVal, expf, mant]

namespace FastRecipSqrt

/-- MAGIC_CONSTANT of fast_reciprocal_sqrt_hybrid.cpp. -/
def MAGIC : ℕ := 0x5f375a86

/-- Exact binary32 value of ITERATION_CONSTANT = 1.5008908f. -/
def ITERATION_CONSTANT : ℚ := 12590385 / 8388608

/-- Entry i of the FastRecipSqrt lookup table: the exact reference at
the mantissa representative 1 + i/256 divided by the fixed base
approximation 1/sqrt(1.5) (the FastRecipSqrt constructor). -/
noncomputable def lut (i : ℕ) : ℝ := rsqrtRef (1 + (i : ℚ) / 256) / rsqrtRef (3 / 2)

/-- FastRecipSqrt::compute: mantissa-indexed table correction applied
to the bit-hack estimate, then one Newton-Raphson iteration with the
adjusted constant.  The table is only read here, never written. -/
noncomputable def compute (p : ℕ) : ℝ :=
  let lut_index : ℕ := mant p / 2 ^ 15 / 2 ^ 3
  let y : ℝ := (floatVal (bitApprox MAGIC p) : ℝ) * lut (lut_index % 256)
  y * ((ITERATION_CONSTANT : ℝ) - (floatVal p : ℝ) / 2 * y * y)

end FastRecipSqrt

/-- C9 (amended): both correction tables are immutable functions of
the entry index built from the exact reference primitive.  In
fast_reciprocal_sqrt_final.cpp entry i times the kernel's own Q_rsqrt
approximation at the bucket representative gives exactly the exact
reciprocal square root there, as the claim states; in
fast_reciprocal_sqrt_hybrid.cpp entry j times the fixed base
approximation 1/sqrt(1.5) gives the exact value at the mantissa
representative — the divisor is a constant, not the kernel's own
approximation at the representative (see the counterexample). -/
theorem correction_tables (i j : ℕ) (hi : i < 16) (hj : j < 256) :
    GameEngine.correction_lut i * (Q_rsqrt (GameEngine.repPattern i) : ℝ) =
      rsqrtRef (1 / 16 * i + 1 / 4) ∧
    FastRecipSqrt.lut j * rsqrtRef (3 / 2) = rsqrtRef (1 + (j : ℚ) / 256) := by
  constructor
  · unfold GameEngine.correction_lut
    rw [div_mul_cancel₀]
    have hne : Q_rsqrt (GameEngine.repPattern i) ≠ 0 := by
      interval_cases i <;>
        norm_num [Q_rsqrt, GameEngine.repPattern, nrStep, floatVal, expf, mant, bitApprox,
          usub32, shr1]
    exact_mod_cast hne
  · unfold FastRecipSqrt.lut
    rw [div_mul_cancel₀]
    unfold rsqrtRef
    exact inv_ne_zero (ne_of_gt (Real.sqrt_pos.mpr (by norm_num)))

/-- C9 witness: the table theorems applied at entry 0 of each table. -/
theorem correction_tables_witness :
    (0 : ℕ) < 16 ∧ (0 : ℕ) < 256 ∧
      (GameEngine.correction_lut 0 * (Q_rsqrt (GameEngine.repPattern 0) : ℝ) =
        rsqrtRef (1 / 16 * 0 + 1 / 4) ∧
      FastRecipSqrt.lut 0 * rsqrtRef (3 / 2) = rsqrtRef (1 + (0 : ℚ) / 256)) :=
  ⟨by norm_num, by norm_num, correction_tables 0 0 (by norm_num) (by norm_num)⟩

/-- C9 counterexample: entry 0 of the FastRecipSqrt table has bucket
representative 1.0 (pattern 0x3F800000), but multiplying the entry by
the kernel's own uncorrected bit-hack approximation at 1.0 does not
recover the exact reciprocal square root: the entry was built against
the fixed base 1/sqrt(1.5), not against the kernel's approximation at
the representative, so the claim fails on this table. -/
theorem hybrid_lut_fixed_base_divisor :
    floatVal 0x3F800000 = 1 + (0 : ℚ) / 256 ∧
    FastRecipSqrt.lut 0 * (floatVal (bitApprox FastRecipSqrt.MAGIC 0x3F800000) : ℝ) ≠
      rsqrtRef (1 + (0 : ℚ) / 256) := by
  constructor
  · norm_num [floatVal, expf, mant]
  · have hu : floatVal (bitApprox FastRecipSqrt.MAGIC 0x3F800000) = 8105283 / 8388608 := by
      norm_num [floatVal, expf, mant, bitApprox, usub32, shr1, FastRecipSqrt.MAGIC]
    rw [hu]
    intro h
    simp only [FastRecipSqrt.lut, rsqrtRef] at h
    push_cast at h
    norm_num at h
    have h3 := congrArg (fun t : ℝ => t ^ 2) h
    simp only [div_pow, mul_pow, one_pow,
      Real.sq_sqrt (by norm_num : (0 : ℝ) ≤ 3), Real.sq_sqrt (by norm_num : (0 : ℝ) ≤ 2)] at h3
    norm_num at h3

namespace FinalGame

/-- fast_rsqrt_improved of final_game_algorithm.cpp: magic 0x5f375a86
and two Newton-Raphson iterations with constant 1.5. -/
def fast_rsqrt_improved (p : ℕ) : ℚ :=
  let x2 : ℚ := floatVal p / 2
  nrStep (3 / 2) x2 (nrStep (3 / 2) x2 (floatVal (bitApprox 0x5f375a86 p)))

/-- NaN test on a float pattern (exponent field all ones, nonzero
mantissa). -/
def isNaN (p : ℕ) : Bool := expf p == 255 && mant p != 0

/-- Zero test on a float pattern (+0.0f or -0.0f). -/
def isZero (p : ℕ) : Bool := p == 0 || p == 2 ^ 31

/-- C float equality == on patterns: false when either side is NaN,
true exactly on equal patterns or on the two signed zeros. -/
def beq32 (a b : ℕ) : Bool :=
  !isNaN a && !isNaN b && (a == b || (isZero a && isZero b))

/-- The hash of FastRsqrtCache: (bits >> 10) & (CACHE_SIZE - 1). -/
def hashIdx (p : ℕ) : Fin 1024 := ⟨p / 2 ^ 10 % 1024, Nat.mod_lt _ (by norm_num)⟩

/-- The 1024-entry direct-mapped cache, each entry an (input, output)
pattern/value pair; memset zero-initialised. -/
def initCache : Fin 1024 → ℕ × ℚ := fun _ => (0, 0)

/-- FastRsqrtCache::compute: return the cached output on an input hit
(float ==), otherwise compute fresh and overwrite the slot. -/
def cacheCompute (s : Fin 1024 → ℕ × ℚ) (p : ℕ) : ℚ × (Fin 1024 → ℕ × ℚ) :=
  if beq32 (s (hashIdx p)).1 p then ((s (hashIdx p)).2, s)
  else (fast_rsqrt_improved p, Function.update s (hashIdx p) (p, fast_rsqrt_improved p))

/-- Run a sequence of compute calls from a starting cache state. -/
def runCalls (s : Fin 1024 → ℕ × ℚ) : List ℕ → (Fin 1024 → ℕ × ℚ)
  | [] => s
  | p :: ps => runCalls (cacheCompute s p).2 ps

/-- Cache soundness invariant: every slot holding a non-zero input
pattern holds the uncached kernel value for it. -/
def CacheInv (s : Fin 1024 → ℕ × ℚ) : Prop :=
  ∀ j : Fin 1024, isZero (s j).1 = false → (s j).2 = fast_rsqrt_improved (s j).1

end FinalGame

/-- Invariant holds for the zero-initialised cache. -/
theorem cacheInv_init : FinalGame.CacheInv FinalGame.initCache := by
  intro j hj
  simp [FinalGame.initCache, FinalGame.isZero] at hj

/-- Invariant is preserved by one compute call. -/
theorem cacheInv_step (s : Fin 1024 → ℕ × ℚ) (hs : FinalGame.CacheInv s) (p : ℕ) :
    FinalGame.CacheInv (FinalGame.cacheCompute s p).2 := by
  unfold FinalGame.cacheCompute
  by_cases hb : FinalGame.beq32 (s (FinalGame.hashIdx p)).1 p = true
  · rw [if_pos hb]
    exact hs
  · rw [if_neg hb]
    intro j hj
    dsimp only at hj ⊢
    by_cases hji : j = FinalGame.hashIdx p
    · subst hji
      simp [Function.update_same]
    · rw [Function.update_noteq hji] at hj ⊢
      exact hs j hj

/-- Invariant holds after any call sequence. -/
theorem cacheInv_run (calls : List ℕ) (s : Fin 1024 → ℕ × ℚ) (hs : FinalGame.CacheInv s) :
    FinalGame.CacheInv (FinalGame.runCalls s calls) := by
  induction calls generalizing s with
  | nil => exact hs
  | cons p ps ih => exact ih _ (cacheInv_step s hs p)

/-- C10: after any prior sequence of calls in any order, the cached
compute on any pattern that is not a signed zero returns exactly the
uncached fast_rsqrt_improved value: a hit can only occur on a slot
whose stored input pattern is float-equal to p, which for non-zero
non-NaN patterns means identical, and NaN inputs never hit. -/
theorem cache_transparent (calls : List ℕ) (p : ℕ) (hp : FinalGame.isZero p = false) :
    (FinalGame.cacheCompute (FinalGame.runCalls FinalGame.initCache calls) p).1 =
      FinalGame.fast_rsqrt_improved p := by
  have hinv : FinalGame.CacheInv (FinalGame.runCalls FinalGame.initCache calls) :=
    cacheInv_run calls _ cacheInv_init
  unfold FinalGame.cacheCompute
  by_cases hb : FinalGame.beq32
      ((FinalGame.runCalls FinalGame.initCache calls) (FinalGame.hashIdx p)).1 p = true
  · rw [if_pos hb]
    unfold FinalGame.beq32 at hb
    simp only [Bool.and_eq_true, Bool.or_eq_true, Bool.not_eq_true', beq_iff_eq] at hb
    obtain ⟨⟨hna, hnp⟩, hor⟩ := hb
    rcases hor with heq | ⟨hza, hzp⟩
    · have hent := hinv (FinalGame.hashIdx p) (by rw [heq]; exact hp)
      rw [hent, heq]
    · simp [hp] at hzp
  · rw [if_neg hb]

/-- C10 witness: the theorem applied to the empty call history and the
pattern of 1.0f, which is not a zero pattern. -/
theorem cache_transparent_witness :
    FinalGame.isZero 0x3F800000 = false ∧
      (FinalGame.cacheCompute (FinalGame.runCalls FinalGame.initCache []) 0x3F800000).1 =
        FinalGame.fast_rsqrt_improved 0x3F800000 :=
  ⟨by decide, cache_transparent [] 0x3F800000 (by decide)⟩
